import Mathlib

/-!
Verification of the reconciliation core of the jaydesign accounts-receivable
application (src/lib: string normalization, name matching, single matching,
combination search, group matching; upload page: manual group-match workflow).

Strings are modelled as `List Char`; JS string methods (`substring(0, 4)`,
lexicographic `>`, `includes`) become `List.take 4`, `strGt`, `strIncludes`.
Money amounts are `Int` (TS `number`, always integral in this code).
Optional fields are `Option`; JS truthiness of an optional string (null and
the empty string are falsy) is `optTruthy`.
-/

namespace JayDesign

/-- Character-list model of a JS string. -/
abbrev Str := List Char

/-- JS truthiness of an optional string: null/undefined and "" are falsy. -/
def optTruthy : Option Str → Bool
  | none => false
  | some s => !s.isEmpty

/-- Transaction status from src/types (quote, design, production, completed, card). -/
inductive TStatus where
  | quote
  | design
  | production
  | completed
  | card
deriving DecidableEq

/-- `Client` from src/types, restricted to the fields the matching core reads. -/
structure Client where
  id : Str
  name : Str
  parent_id : Option Str
deriving DecidableEq

/-- `Transaction` from src/types, restricted to the fields the matching core reads. -/
structure Transaction where
  id : Str
  amount : Int
  order_date : Option Str
  status : TStatus
  paid_at : Option Str
  clients : Option Client
deriving DecidableEq

/-- `BankRecord` from src/types, restricted to the fields the matching core reads. -/
structure BankRecord where
  id : Str
  transaction_date : Str
  depositor : Option Str
  amount : Int
  is_matched : Bool
deriving DecidableEq

/-- The `matchType` tag of `MatchResult`. The second TS variant is spelled
`partial` in the source, a Lean keyword, so it is renamed `fuzzy` here; the
current logic only ever produces `exact`. -/
inductive MatchType where
  | exact
  | fuzzy
deriving DecidableEq

/-- `MatchResult` from src/types. -/
structure MatchResult where
  transaction : Transaction
  bankRecord : BankRecord
  matchType : MatchType
deriving DecidableEq

/-- `GroupMatchResult` from src/types. -/
structure GroupMatchResult where
  transactions : List Transaction
  bankRecord : BankRecord
  clientName : Str
  totalAmount : Int
deriving DecidableEq

/-- Does `normalizeString`'s character-class filter keep this character?
The regex keeps word characters (ASCII letters, digits, underscore) and
Hangul syllables (U+AC00 to U+D7A3) and drops everything else. -/
def keepChar (c : Char) : Bool :=
  c.isAlphanum || c == '_' || (0xAC00 ≤ c.toNat && c.toNat ≤ 0xD7A3)

/-- `normalizeString` (matching module, lines 203-208): strip whitespace,
drop every character outside the word/Hangul class, lowercase. The leading
whitespace strip is subsumed by the class filter, since no whitespace
character is a word or Hangul character. -/
def normalizeString (s : Str) : Str :=
  (s.filter keepChar).map Char.toLower

/-- Does `hay` start with `needle`? (helper for the JS `String.includes`). -/
def strStarts : Str → Str → Bool
  | _, [] => true
  | [], _ :: _ => false
  | a :: as, b :: bs => (a == b) && strStarts as bs

/-- JS `hay.includes(needle)`: contiguous-substring containment. -/
def strIncludes : Str → Str → Bool
  | [], needle => strStarts [] needle
  | h :: t, needle => strStarts (h :: t) needle || strIncludes t needle

/-- `isNameMatch` (matching module, lines 211-222): false on an empty input,
otherwise bidirectional substring containment of the normalized names. -/
def isNameMatch (clientName depositor : Str) : Bool :=
  if clientName.isEmpty || depositor.isEmpty then false
  else
    strIncludes (normalizeString depositor) (normalizeString clientName) ||
    strIncludes (normalizeString clientName) (normalizeString depositor)

/-- JS `<` on strings: lexicographic comparison by code unit. -/
def strLt : Str → Str → Bool
  | [], [] => false
  | [], _ :: _ => true
  | _ :: _, [] => false
  | a :: as, b :: bs => if a < b then true else if b < a then false else strLt as bs

/-- JS `>` on strings. -/
def strGt (a b : Str) : Bool := strLt b a

/-- The `transaction.clients?.name || ''` resolution in `performMatching`. -/
def clientNameOf (t : Transaction) : Str :=
  match t.clients with
  | none => []
  | some c => c.name

/-- The outstanding-transaction filter of `performMatching` (lines 235-237):
status not completed/card and falsy `paid_at`. -/
def pendingFilter (t : Transaction) : Bool :=
  !(t.status == TStatus.completed) && !(t.status == TStatus.card) && !optTruthy t.paid_at

/-- The cross-year rejection of `performMatching` (lines 251-253): skip when
the order date exists, its 4-character year is truthy, and differs from the
deposit date's year. -/
def yearMismatch (t : Transaction) (r : BankRecord) : Bool :=
  match t.order_date with
  | none => false
  | some od => !(od.take 4).isEmpty && !(od.take 4 == r.transaction_date.take 4)

/-- The date-order rejection of `performMatching` (line 256): skip when the
order date is truthy and lexicographically after the deposit date. -/
def orderAfterDeposit (t : Transaction) (r : BankRecord) : Bool :=
  match t.order_date with
  | none => false
  | some od => !od.isEmpty && strGt od r.transaction_date

/-- The inner deposit-scan loop of `performMatching` (lines 243-267): first
record not yet consumed in this run that passes the amount, year, date-order
and name checks. -/
def scanRecords (results : List MatchResult) (t : Transaction) (clientName : Str) :
    List BankRecord → Option MatchResult
  | [] => none
  | r :: rs =>
    if ∃ m ∈ results, m.bankRecord.id = r.id then
      scanRecords results t clientName rs
    else if t.amount ≠ r.amount then
      scanRecords results t clientName rs
    else if yearMismatch t r = true then
      scanRecords results t clientName rs
    else if orderAfterDeposit t r = true then
      scanRecords results t clientName rs
    else if clientName ≠ [] ∧ isNameMatch clientName (r.depositor.getD []) = true then
      some ⟨t, r, MatchType.exact⟩
    else
      scanRecords results t clientName rs

/-- The outer transaction loop of `performMatching` (lines 239-268). -/
def matchLoop (records : List BankRecord) :
    List Transaction → List MatchResult → List MatchResult
  | [], results => results
  | t :: ts, results =>
    match scanRecords results t (clientNameOf t) records with
    | some m => matchLoop records ts (results ++ [m])
    | none => matchLoop records ts results

/-- `performMatching` (matching module, lines 225-271). -/
def performMatching (transactions : List Transaction) (bankRecords : List BankRecord) :
    List MatchResult :=
  let unmatchedRecords := bankRecords.filter (fun r => !r.is_matched)
  let pendingTransactions := transactions.filter pendingFilter
  matchLoop unmatchedRecords pendingTransactions []

/-- `getParentClientId` (lines 283-287): the client's `parent_id || id`
(JS `||`, so an empty parent id falls back to the client's own id);
none when the transaction has no joined client. -/
def getParentClientId (t : Transaction) : Option Str :=
  match t.clients with
  | none => none
  | some c =>
    some (match c.parent_id with
          | none => c.id
          | some p => if p.isEmpty then c.id else p)

/-- One step of the descending insertion used to model the JS stable
`sort((a, b) => b.amount - a.amount)`. -/
def insertDesc (t : Transaction) : List Transaction → List Transaction
  | [] => [t]
  | x :: xs => if t.amount ≤ x.amount then x :: insertDesc t xs else t :: x :: xs

/-- Stable sort by amount descending (the JS `Array.prototype.sort` is stable,
and any stable sort for a fixed comparator yields the same list). -/
def sortDesc (l : List Transaction) : List Transaction :=
  l.foldl (fun acc t => insertDesc t acc) []

/-- Sum of the amounts of a transaction list. -/
def amounts (l : List Transaction) : Int :=
  (l.map Transaction.amount).sum

/-- The recursive `backtrack` of `findMatchingCombination` (lines 372-390).
The remaining candidate tail stands for the index into the capped sorted
array: `index >= maxItems` becomes the empty tail, where both non-success
outcomes of the source are `null`. -/
def backtrack (target : Int) : List Transaction → Int → List Transaction → Option (List Transaction)
  | [], currentSum, selected =>
    if currentSum = target ∧ 2 ≤ selected.length then some selected
    else none
  | t :: rest, currentSum, selected =>
    if currentSum = target ∧ 2 ≤ selected.length then some selected
    else if target < currentSum then none
    else
      match backtrack target rest (currentSum + t.amount) (selected ++ [t]) with
      | some found => some found
      | none => backtrack target rest currentSum selected

/-- `findMatchingCombination` (lines 362-393): sort descending by amount,
cap to the first 10 candidates, depth-first include-first backtracking. -/
def findMatchingCombination (transactions : List Transaction) (targetAmount : Int) :
    Option (List Transaction) :=
  backtrack targetAmount ((sortDesc transactions).take 10) 0 []

/-- Insertion into the `transactionsByClient` map (lines 313-315): values are
appended to an existing key's list, new keys are appended at the end,
mirroring JS `Map` insertion-order iteration. -/
def insertGroup (key : Str) (t : Transaction) :
    List (Str × List Transaction) → List (Str × List Transaction)
  | [] => [(key, [t])]
  | (k, ts) :: rest =>
    if k = key then (k, ts ++ [t]) :: rest else (k, ts) :: insertGroup key t rest

/-- Building `transactionsByClient` (lines 307-316): group the pending
transactions by parent client id, skipping falsy ids. -/
def buildGroups (ts : List Transaction) : List (Str × List Transaction) :=
  ts.foldl (fun acc t =>
    match getParentClientId t with
    | none => acc
    | some pid => if pid.isEmpty then acc else insertGroup pid t acc) []

/-- The `availableTransactions` filter (lines 328-330): drop transactions
whose id already occurs in an earlier group result of this run. -/
def availOf (results : List GroupMatchResult) (l : List Transaction) : List Transaction :=
  l.filter (fun t => decide (¬ ∃ r ∈ results, ∃ rt ∈ r.transactions, rt.id = t.id))

/-- The parent-client lookup of `performGroupMatching` (lines 336-338): the
joined client of the first transaction in the full input list whose client
id equals `pid`. -/
def findParentClient (transactions : List Transaction) (pid : Str) : Option Client :=
  (transactions.find? (fun t =>
    match t.clients with
    | some c2 => c2.id == pid
    | none => false)).bind Transaction.clients

/-- The display-name resolution of `performGroupMatching` (lines 334-341):
the looked-up parent client's name when the representative transaction's
client has a truthy parent id and the lookup succeeds with a truthy name,
otherwise the representative's own client name. -/
def resolveDisplayName (transactions : List Transaction) (rep : Transaction) : Str :=
  let clientName := clientNameOf rep
  let parentClient : Option Client :=
    match rep.clients with
    | none => none
    | some c =>
      match c.parent_id with
      | none => none
      | some p => if p.isEmpty then none else findParentClient transactions p
  match parentClient with
  | some pc => if pc.name.isEmpty then clientName else pc.name
  | none => clientName

/-- The inner client-group loop of `performGroupMatching` (lines 326-355). -/
def tryGroups (transactions : List Transaction) (record : BankRecord)
    (results : List GroupMatchResult) :
    List (Str × List Transaction) → Option GroupMatchResult
  | [] => none
  | (_, clientTransactions) :: gs =>
    let availableTransactions := availOf results clientTransactions
    if availableTransactions.length < 2 then
      tryGroups transactions record results gs
    else
      match availableTransactions with
      | [] => tryGroups transactions record results gs
      | rep :: _ =>
        let displayName := resolveDisplayName transactions rep
        if isNameMatch displayName (record.depositor.getD []) = false then
          tryGroups transactions record results gs
        else
          match findMatchingCombination availableTransactions record.amount with
          | some comb =>
            if 2 ≤ comb.length then
              some ⟨comb, record, displayName, record.amount⟩
            else
              tryGroups transactions record results gs
          | none => tryGroups transactions record results gs

/-- The outer deposit loop of `performGroupMatching` (lines 319-356). -/
def recordLoop (transactions : List Transaction) (groups : List (Str × List Transaction)) :
    List BankRecord → List GroupMatchResult → List GroupMatchResult
  | [], results => results
  | r :: rs, results =>
    if ∃ g ∈ results, g.bankRecord.id = r.id then
      recordLoop transactions groups rs results
    else
      match tryGroups transactions r results groups with
      | some g => recordLoop transactions groups rs (results ++ [g])
      | none => recordLoop transactions groups rs results

/-- `performGroupMatching` (matching module, lines 290-359). -/
def performGroupMatching (transactions : List Transaction) (bankRecords : List BankRecord)
    (usedRecordIds usedTransactionIds : List Str) : List GroupMatchResult :=
  let unmatchedRecords := bankRecords.filter (fun r =>
    !r.is_matched && !usedRecordIds.contains r.id)
  let pendingTransactions := transactions.filter (fun t =>
    pendingFilter t && !usedTransactionIds.contains t.id)
  recordLoop transactions (buildGroups pendingTransactions) unmatchedRecords []

/-- The state of the manual group-match workflow on the upload page that
`handleConfirmGroupMatch` reads and writes. `selectedTransactionIds` is a JS
`Set` of ids, modelled as a list whose deduplicated length is the set size. -/
structure UploadState where
  unmatchedRecords : List BankRecord
  unmatchedTransactions : List Transaction
  selectedRecordForGroup : Option BankRecord
  selectedTransactionIds : List Str
  groupMatchResults : List GroupMatchResult
  error : Str
deriving DecidableEq

/-- `selectedTransactionsTotal` (upload page, lines 195-197): sum of the
amounts of the selected unmatched transactions. -/
def selectedTransactionsTotal (s : UploadState) : Int :=
  ((s.unmatchedTransactions.filter (fun t => s.selectedTransactionIds.contains t.id)).map
    Transaction.amount).sum

/-- The mismatch message set on line 209-211. The browser locale currency
formatting (`Intl.NumberFormat`) is an external API, abstracted here as plain
decimal rendering of the two amounts inside the literal Korean template. -/
def mismatchMessage (total amount : Int) : Str :=
  "선택한 거래 합계(".data ++ (toString total).data ++ ")가 입금액(".data ++
    (toString amount).data ++ ")과 일치하지 않습니다.".data

/-- The `'알 수 없음'` fallback of the client-name resolution on line 215. -/
def unknownName : Str := "알 수 없음".data

/-- `handleConfirmGroupMatch` (upload page, lines 200-239), as a pure state
transformer: React `setX` calls become field updates of the returned state. -/
def handleConfirmGroupMatch (s : UploadState) : UploadState :=
  match s.selectedRecordForGroup with
  | none => s
  | some rec =>
    if s.selectedTransactionIds.dedup.length < 2 then s
    else
      let selectedTxs := s.unmatchedTransactions.filter (fun t =>
        s.selectedTransactionIds.contains t.id)
      if selectedTransactionsTotal s ≠ rec.amount then
        { s with error := mismatchMessage (selectedTransactionsTotal s) rec.amount }
      else
        let clientName :=
          match selectedTxs.head? with
          | none => unknownName
          | some t0 =>
            match t0.clients with
            | none => unknownName
            | some c => if c.name.isEmpty then unknownName else c.name
        { s with
          groupMatchResults := s.groupMatchResults ++
            [⟨selectedTxs, rec, clientName, rec.amount⟩],
          unmatchedRecords := s.unmatchedRecords.filter (fun r => !(r.id == rec.id)),
          unmatchedTransactions := s.unmatchedTransactions.filter (fun t =>
            !s.selectedTransactionIds.contains t.id),
          selectedRecordForGroup := none,
          selectedTransactionIds := [],
          error := [] }

/-- The variance shown in the manual panel (upload page, line 589):
deposit amount minus selection total, for the selected deposit. -/
def displayedVariance (s : UploadState) : Option Int :=
  s.selectedRecordForGroup.map (fun rec => rec.amount - selectedTransactionsTotal s)

/-- The `disabled` condition of the confirm button (upload page, lines 595-598):
fewer than 2 selected transactions, or selection total differing from the
selected deposit's amount. -/
def confirmDisabled (s : UploadState) : Option Bool :=
  s.selectedRecordForGroup.map (fun rec =>
    decide (s.selectedTransactionIds.dedup.length < 2) ||
    decide (selectedTransactionsTotal s ≠ rec.amount))

/-! Concrete inputs used by witnesses and counterexamples. -/

/-- A client with no parent. -/
def cAB : Client := ⟨"c1".data, "ab".data, none⟩

/-- An outstanding transaction of client `cAB` (scenario-A shape). -/
def tA : Transaction := ⟨"t1".data, 50000, some "2024-01-01".data, .production, none, some cAB⟩

/-- An unmatched deposit matching `tA` by amount, year, date order and name. -/
def rA : BankRecord := ⟨"r1".data, "2024-01-05".data, some "abcd".data, 50000, false⟩

/-- A second deposit with the same amount and depositor as `rA`. -/
def rB : BankRecord := ⟨"r2".data, "2024-01-06".data, some "abcd".data, 50000, false⟩

/-- An already-matched deposit. -/
def rM : BankRecord := ⟨"r3".data, "2024-01-07".data, some "ab".data, 10000, true⟩

/-- A completed (paid) transaction. -/
def tC : Transaction := ⟨"t2".data, 10000, some "2024-01-02".data, .completed,
  some "2024-01-07".data, some cAB⟩

/-- A parentless client used for group matching. -/
def cG : Client := ⟨"g1".data, "xy".data, none⟩

/-- First of two outstanding transactions of client `cG`. -/
def tG1 : Transaction := ⟨"ga".data, 30000, none, .production, none, some cG⟩

/-- Second of two outstanding transactions of client `cG`. -/
def tG2 : Transaction := ⟨"gb".data, 20000, none, .design, none, some cG⟩

/-- A deposit equal to the sum of `tG1` and `tG2`, depositor matching `cG`. -/
def rG : BankRecord := ⟨"rg".data, "2024-02-02".data, some "xy".data, 50000, false⟩

/-- A top-level client whose registered name is empty. -/
def cParent : Client := ⟨"p1".data, [], none⟩

/-- A sub-client of `cParent`. -/
def cChild : Client := ⟨"s1".data, "ab".data, some "p1".data⟩

/-- A paid transaction joined to `cParent`, making the parent findable in the
full transaction list while staying out of the pending pool. -/
def tP : Transaction := ⟨"tp".data, 1000, none, .completed, some "2023-01-01".data, some cParent⟩

/-- First outstanding transaction of the sub-client `cChild`. -/
def tS1 : Transaction := ⟨"sa".data, 30000, none, .production, none, some cChild⟩

/-- Second outstanding transaction of the sub-client `cChild`. -/
def tS2 : Transaction := ⟨"sb".data, 20000, none, .design, none, some cChild⟩

/-- A deposit summing `tS1` and `tS2`, depositor matching the sub-client name. -/
def rS : BankRecord := ⟨"rs".data, "2024-03-03".data, some "ab".data, 50000, false⟩

/-- A top-level client with a non-empty name. -/
def cP2 : Client := ⟨"p2".data, "pq".data, none⟩

/-- A sub-client of `cP2`. -/
def cR : Client := ⟨"s2".data, "rr".data, some "p2".data⟩

/-- A transaction joined to `cP2`, making that parent findable. -/
def tP2 : Transaction := ⟨"tq".data, 500, none, .quote, none, some cP2⟩

/-- A representative transaction whose client is the sub-client `cR`. -/
def tR : Transaction := ⟨"tr".data, 100, none, .design, none, some cR⟩

/-- An unmatched transaction of amount 30000 for the manual workflow. -/
def uT1 : Transaction := ⟨"u1".data, 30000, none, .production, none, some cAB⟩

/-- An unmatched transaction of amount 19000 for the manual workflow. -/
def uT2 : Transaction := ⟨"u2".data, 19000, none, .design, none, some cAB⟩

/-- An unmatched transaction of amount 20000 for the manual workflow. -/
def uT3 : Transaction := ⟨"u3".data, 20000, none, .design, none, some cAB⟩

/-- An unmatched deposit of amount 50000 for the manual workflow. -/
def uRec : BankRecord := ⟨"ur".data, "2024-04-04".data, some "ab".data, 50000, false⟩

/-- One of ten equal-amount candidates for the scenario with 11 eligible
transactions. -/
def eN (i : Nat) : Transaction :=
  ⟨'e' :: (toString i).data, 100, none, TStatus.production, none, none⟩

/-- The 11th, smallest-amount candidate: the only way to reach target 101 with
at least two items uses it. -/
def eZ : Transaction := ⟨"ez".data, 1, none, TStatus.production, none, none⟩

/-- Eleven candidates: ten of amount 100 and one of amount 1, so target 101
is reachable only by a pair using `eZ`, which descending sort places 11th,
outside the 10-item search cap. -/
def elevenCandidates : List Transaction :=
  [eN 0, eN 1, eN 2, eN 3, eN 4, eN 5, eN 6, eN 7, eN 8, eN 9, eZ]

/-- Manual-workflow state with `uT1` and `uT2` selected (sum 49000) against
the 50000 deposit `uRec`. -/
def sMismatch : UploadState :=
  ⟨[uRec], [uT1, uT2], some uRec, ["u1".data, "u2".data], [], []⟩

/-- Manual-workflow state with `uT1` and `uT3` selected (sum 50000) against
the 50000 deposit `uRec`. -/
def sExact : UploadState :=
  ⟨[uRec], [uT1, uT3], some uRec, ["u1".data, "u3".data], [], []⟩

/-! Helper lemmas. -/

theorem amounts_nil : amounts [] = 0 := rfl

theorem amounts_cons (t : Transaction) (l : List Transaction) :
    amounts (t :: l) = t.amount + amounts l := by
  simp [amounts]

theorem amounts_nonneg (l : List Transaction) (h : ∀ t ∈ l, 0 ≤ t.amount) :
    0 ≤ amounts l := by
  induction l with
  | nil => simp [amounts]
  | cons t l ih =>
    rw [amounts_cons]
    have h1 := h t (by simp)
    have h2 := ih (fun u hu => h u (by simp [hu]))
    omega

theorem backtrack_sound (target : Int) :
    ∀ (rest : List Transaction) (currentSum : Int) (selected l : List Transaction),
    backtrack target rest currentSum selected = some l →
    ∃ sub, sub.Sublist rest ∧ l = selected ++ sub ∧
      currentSum + amounts sub = target ∧ 2 ≤ l.length := by
  intro rest
  induction rest with
  | nil =>
    intro currentSum selected l h
    simp only [backtrack] at h
    split_ifs at h with hc
    · cases h
      exact ⟨[], List.Sublist.refl _, by simp, by simpa [amounts] using hc.1, hc.2⟩
  | cons t rest ih =>
    intro currentSum selected l h
    simp only [backtrack] at h
    split_ifs at h with hc hp
    · cases h
      exact ⟨[], List.nil_sublist _, by simp, by simpa [amounts] using hc.1, hc.2⟩
    · cases heq : backtrack target rest (currentSum + t.amount) (selected ++ [t]) with
      | some found =>
        rw [heq] at h
        cases h
        obtain ⟨sub', hsub', hl, hsum, hlen⟩ := ih _ _ _ heq
        refine ⟨t :: sub', List.Sublist.cons₂ t hsub', ?_, ?_, hlen⟩
        · rw [hl, List.append_assoc]
          rfl
        · rw [amounts_cons]
          omega
      | none =>
        rw [heq] at h
        obtain ⟨sub, hsub, hl, hsum, hlen⟩ := ih _ _ _ h
        exact ⟨sub, List.Sublist.cons t hsub, hl, hsum, hlen⟩

theorem backtrack_complete (target : Int) :
    ∀ (rest : List Transaction) (currentSum : Int) (selected sub : List Transaction),
    (∀ t ∈ rest, 0 ≤ t.amount) →
    sub.Sublist rest →
    currentSum + amounts sub = target →
    2 ≤ selected.length + sub.length →
    (backtrack target rest currentSum selected).isSome := by
  intro rest
  induction rest with
  | nil =>
    intro currentSum selected sub _ hsub hsum hlen
    have hnil : sub = [] := List.sublist_nil.mp hsub
    subst hnil
    simp only [amounts_nil, add_zero] at hsum
    simp only [List.length_nil, add_zero] at hlen
    simp [backtrack, hsum, hlen]
  | cons t rest ih =>
    intro currentSum selected sub hnn hsub hsum hlen
    have hnnrest : ∀ u ∈ rest, 0 ≤ u.amount := fun u hu => hnn u (by simp [hu])
    have hsubnn : 0 ≤ amounts sub :=
      amounts_nonneg sub (fun u hu => hnn u (hsub.subset hu))
    simp only [backtrack]
    split_ifs with hc hp
    · simp
    · omega
    · cases hsub with
      | cons _ hsub1 =>
        cases heq : backtrack target rest (currentSum + t.amount) (selected ++ [t]) with
        | some found => simp
        | none =>
          simp only []
          exact ih currentSum selected sub hnnrest hsub1 hsum hlen
      | cons₂ _ hsub1 =>
        rename_i sub1
        rw [amounts_cons] at hsum
        have hfirst : (backtrack target rest (currentSum + t.amount) (selected ++ [t])).isSome := by
          apply ih (currentSum + t.amount) (selected ++ [t]) sub1 hnnrest hsub1 (by omega)
          simp only [List.length_append, List.length_singleton]
          simp only [List.length_cons] at hlen
          omega
        obtain ⟨found, heq⟩ := Option.isSome_iff_exists.mp hfirst
        rw [heq]
        simp

theorem mem_insertDesc (l : List Transaction) (t x : Transaction)
    (h : x ∈ insertDesc t l) : x = t ∨ x ∈ l := by
  induction l with
  | nil =>
    simp [insertDesc] at h
    exact Or.inl h
  | cons y ys ih =>
    simp only [insertDesc] at h
    split_ifs at h with hle
    · rcases List.mem_cons.mp h with h1 | h1
      · exact Or.inr (by simp [h1])
      · rcases ih h1 with h2 | h2
        · exact Or.inl h2
        · exact Or.inr (by simp [h2])
    · rcases List.mem_cons.mp h with h1 | h1
      · exact Or.inl h1
      · exact Or.inr h1

theorem mem_sortDesc_fold (l : List Transaction) :
    ∀ (acc : List Transaction) (x : Transaction),
    x ∈ List.foldl (fun a t => insertDesc t a) acc l → x ∈ acc ∨ x ∈ l := by
  induction l with
  | nil => intro acc x h; exact Or.inl h
  | cons t ts ih =>
    intro acc x h
    rcases ih (insertDesc t acc) x h with h1 | h1
    · rcases mem_insertDesc acc t x h1 with h2 | h2
      · exact Or.inr (by simp [h2])
      · exact Or.inl h2
    · exact Or.inr (by simp [h1])

theorem mem_sortDesc (l : List Transaction) (x : Transaction)
    (h : x ∈ sortDesc l) : x ∈ l := by
  rcases mem_sortDesc_fold l [] x h with h1 | h1
  · cases h1
  · exact h1

theorem find_sound (ts : List Transaction) (target : Int) (l : List Transaction)
    (h : findMatchingCombination ts target = some l) :
    l.Sublist ((sortDesc ts).take 10) ∧ amounts l = target ∧ 2 ≤ l.length := by
  obtain ⟨sub, hsub, hl, hsum, hlen⟩ := backtrack_sound target _ _ _ _ h
  simp only [List.nil_append] at hl
  subst hl
  refine ⟨hsub, by omega, hlen⟩

theorem find_complete (ts : List Transaction) (target : Int) (sub : List Transaction)
    (hnn : ∀ t ∈ ts, 0 ≤ t.amount)
    (hsub : sub.Sublist ((sortDesc ts).take 10))
    (hsum : amounts sub = target) (hlen : 2 ≤ sub.length) :
    (findMatchingCombination ts target).isSome := by
  apply backtrack_complete target _ 0 [] sub _ hsub (by omega) (by simpa using hlen)
  intro t ht
  exact hnn t (mem_sortDesc ts t ((List.take_sublist 10 _).subset ht))

/-- C1: for candidate transactions with positive amounts and a positive
target, `findMatchingCombination` returns a list of at least two candidates
whose amounts sum exactly to the target if and only if such a subset exists
among the first 10 candidates in descending amount order; and it returns
none exactly when no size-≥2 subset of those first 10 reaches the target —
in particular it is complete for at most 10 candidates and misses solutions
lying outside the 10-item cap, as with 11 candidates whose only solution
uses the 11th. -/
theorem findMatchingCombination_correct (ts : List Transaction) (target : Int)
    (hpos : ∀ t ∈ ts, 0 < t.amount) (_htarget : 0 < target) :
    ((∃ l, findMatchingCombination ts target = some l ∧ 2 ≤ l.length ∧
        amounts l = target ∧ l.Sublist ((sortDesc ts).take 10)) ↔
      (∃ sub, sub.Sublist ((sortDesc ts).take 10) ∧ 2 ≤ sub.length ∧
        amounts sub = target)) ∧
    (findMatchingCombination ts target = none ↔
      ¬ ∃ sub, sub.Sublist ((sortDesc ts).take 10) ∧ 2 ≤ sub.length ∧
        amounts sub = target) := by
  have hnn : ∀ t ∈ ts, 0 ≤ t.amount := fun t ht => le_of_lt (hpos t ht)
  constructor
  · constructor
    · rintro ⟨l, _, hlen, hsum, hsub⟩
      exact ⟨l, hsub, hlen, hsum⟩
    · rintro ⟨sub, hsub, hlen, hsum⟩
      have hsome := find_complete ts target sub hnn hsub hsum hlen
      obtain ⟨l, heq⟩ := Option.isSome_iff_exists.mp hsome
      obtain ⟨h1, h2, h3⟩ := find_sound ts target l heq
      exact ⟨l, heq, h3, h2, h1⟩
  · constructor
    · rintro hnone ⟨sub, hsub, hlen, hsum⟩
      have hsome := find_complete ts target sub hnn hsub hsum hlen
      rw [hnone] at hsome
      cases hsome
    · intro hno
      cases heq : findMatchingCombination ts target with
      | none => rfl
      | some l =>
        obtain ⟨h1, h2, h3⟩ := find_sound ts target l heq
        exact absurd ⟨l, h1, h3, h2⟩ hno

/-- Witness for C1: a positive two-candidate instance where the theorem's
existence side is realized, and the scenario of 11 eligible candidates whose
only size-≥2 solution (the pair `eN 0`, `eZ`, summing to 101) uses the item
that descending sort places outside the 10-item cap, so the search returns
none even though a solution exists among all candidates. -/
theorem findMatchingCombination_correct_witness :
    (∀ t ∈ [tG1, tG2], 0 < t.amount) ∧ 0 < (50000 : Int) ∧
    ((∃ l, findMatchingCombination [tG1, tG2] 50000 = some l ∧ 2 ≤ l.length ∧
        amounts l = 50000 ∧ l.Sublist ((sortDesc [tG1, tG2]).take 10)) ↔
     (∃ sub, sub.Sublist ((sortDesc [tG1, tG2]).take 10) ∧ 2 ≤ sub.length ∧
        amounts sub = 50000)) ∧
    findMatchingCombination [tG1, tG2] 50000 = some [tG1, tG2] ∧
    (∀ t ∈ elevenCandidates, 0 < t.amount) ∧ 0 < (101 : Int) ∧
    (findMatchingCombination elevenCandidates 101 = none ↔
      ¬ ∃ sub, sub.Sublist ((sortDesc elevenCandidates).take 10) ∧ 2 ≤ sub.length ∧
        amounts sub = 101) ∧
    findMatchingCombination elevenCandidates 101 = none ∧
    ([eN 0, eZ].Sublist elevenCandidates ∧ 2 ≤ ([eN 0, eZ] : List Transaction).length ∧
      amounts [eN 0, eZ] = 101) :=
  ⟨by decide, by decide,
    (findMatchingCombination_correct [tG1, tG2] 50000 (by decide) (by decide)).1,
    by decide, by decide, by decide,
    (findMatchingCombination_correct elevenCandidates 101 (by decide) (by decide)).2,
    by decide, by decide, by decide, by decide⟩

theorem scanRecords_some (results : List MatchResult) (t : Transaction) (cn : Str) :
    ∀ (records : List BankRecord) (m : MatchResult),
    scanRecords results t cn records = some m →
    m.transaction = t ∧ m.bankRecord ∈ records ∧
    (∀ m' ∈ results, m'.bankRecord.id ≠ m.bankRecord.id) ∧
    t.amount = m.bankRecord.amount ∧
    yearMismatch t m.bankRecord = false ∧
    orderAfterDeposit t m.bankRecord = false ∧
    cn ≠ [] ∧ isNameMatch cn (m.bankRecord.depositor.getD []) = true := by
  intro records
  induction records with
  | nil => intro m h; cases h
  | cons r rs ih =>
    intro m h
    simp only [scanRecords] at h
    split_ifs at h with h1 h2 h3 h4 h5
    · obtain ⟨hmt, hmem, hres, rest⟩ := ih m h
      exact ⟨hmt, by simp [hmem], hres, rest⟩
    · obtain ⟨hmt, hmem, hres, rest⟩ := ih m h
      exact ⟨hmt, by simp [hmem], hres, rest⟩
    · obtain ⟨hmt, hmem, hres, rest⟩ := ih m h
      exact ⟨hmt, by simp [hmem], hres, rest⟩
    · obtain ⟨hmt, hmem, hres, rest⟩ := ih m h
      exact ⟨hmt, by simp [hmem], hres, rest⟩
    · cases h
      refine ⟨rfl, by simp, ?_, not_not.mp h2, ?_, ?_, h5.1, h5.2⟩
      · intro m' hm' heq
        exact h1 ⟨m', hm', heq⟩
      · exact Bool.not_eq_true _ ▸ (by simpa using h3)
      · exact Bool.not_eq_true _ ▸ (by simpa using h4)
    · obtain ⟨hmt, hmem, hres, rest⟩ := ih m h
      exact ⟨hmt, by simp [hmem], hres, rest⟩

theorem matchLoop_mem_of (records : List BankRecord) (P : MatchResult → Prop)
    (hP : ∀ results t m, scanRecords results t (clientNameOf t) records = some m → P m) :
    ∀ (ts : List Transaction) (results : List MatchResult),
    (∀ m ∈ results, P m) → ∀ m ∈ matchLoop records ts results, P m := by
  intro ts
  induction ts with
  | nil => intro results hres m hm; exact hres m hm
  | cons t ts ih =>
    intro results hres m hm
    simp only [matchLoop] at hm
    cases heq : scanRecords results t (clientNameOf t) records with
    | some m' =>
      rw [heq] at hm
      refine ih (results ++ [m']) ?_ m hm
      intro m0 hm0
      rcases List.mem_append.mp hm0 with h0 | h0
      · exact hres m0 h0
      · rw [List.mem_singleton.mp h0]
        exact hP results t m' heq
    | none =>
      rw [heq] at hm
      exact ih results hres m hm

/-- C2: every pair returned by `performMatching` has equal transaction and
deposit amounts; when the transaction has a (truthy) order date, that date's
4-character year equals the deposit date's year and the order date is not
lexicographically after the deposit date; and the transaction resolves to a
non-empty client name for which `isNameMatch` accepts the depositor — so a
transaction without a resolvable client name never appears in a result. -/
theorem performMatching_pairs_valid (transactions : List Transaction)
    (bankRecords : List BankRecord) (m : MatchResult)
    (hm : m ∈ performMatching transactions bankRecords) :
    m.transaction.amount = m.bankRecord.amount ∧
    (∀ od, m.transaction.order_date = some od → od ≠ [] →
        od.take 4 = m.bankRecord.transaction_date.take 4 ∧
        strGt od m.bankRecord.transaction_date = false) ∧
    clientNameOf m.transaction ≠ [] ∧
    isNameMatch (clientNameOf m.transaction) (m.bankRecord.depositor.getD []) = true := by
  have key : ∀ m0 ∈ performMatching transactions bankRecords,
      m0.transaction.amount = m0.bankRecord.amount ∧
      yearMismatch m0.transaction m0.bankRecord = false ∧
      orderAfterDeposit m0.transaction m0.bankRecord = false ∧
      clientNameOf m0.transaction ≠ [] ∧
      isNameMatch (clientNameOf m0.transaction) (m0.bankRecord.depositor.getD []) = true := by
    intro m0 hm0
    simp only [performMatching] at hm0
    refine matchLoop_mem_of _ (fun m1 =>
      m1.transaction.amount = m1.bankRecord.amount ∧
      yearMismatch m1.transaction m1.bankRecord = false ∧
      orderAfterDeposit m1.transaction m1.bankRecord = false ∧
      clientNameOf m1.transaction ≠ [] ∧
      isNameMatch (clientNameOf m1.transaction) (m1.bankRecord.depositor.getD []) = true)
      ?_ _ [] (by simp) m0 hm0
    intro results t m0 hscan
    obtain ⟨hmt, _, _, hamt, hyear, hdate, hcn, hnm⟩ := scanRecords_some results t
      (clientNameOf t) _ m0 hscan
    subst hmt
    exact ⟨hamt, hyear, hdate, hcn, hnm⟩
  obtain ⟨hamt, hyear, hdate, hcn, hnm⟩ := key m hm
  refine ⟨hamt, ?_, hcn, hnm⟩
  intro od hod hne
  have htk : od.take 4 ≠ [] := by
    simp [List.take_eq_nil_iff, hne]
  constructor
  · rw [yearMismatch, hod] at hyear
    simp only [Bool.and_eq_false_iff, Bool.not_eq_false, List.isEmpty_iff,
      Bool.not_eq_false', beq_iff_eq] at hyear
    rcases hyear with h | h
    · exact absurd h htk
    · exact h
  · rw [orderAfterDeposit, hod] at hdate
    simp only [Bool.and_eq_false_iff, Bool.not_eq_false', List.isEmpty_iff] at hdate
    rcases hdate with h | h
    · exact absurd h hne
    · exact h

/-- Witness for C2 at a concrete matching run producing one pair. -/
theorem performMatching_pairs_valid_witness :
    MatchResult.mk tA rA MatchType.exact ∈ performMatching [tA] [rA] ∧
    ((MatchResult.mk tA rA MatchType.exact).transaction.amount =
      (MatchResult.mk tA rA MatchType.exact).bankRecord.amount ∧
     (∀ od, (MatchResult.mk tA rA MatchType.exact).transaction.order_date = some od → od ≠ [] →
        od.take 4 = (MatchResult.mk tA rA MatchType.exact).bankRecord.transaction_date.take 4 ∧
        strGt od (MatchResult.mk tA rA MatchType.exact).bankRecord.transaction_date = false) ∧
     clientNameOf (MatchResult.mk tA rA MatchType.exact).transaction ≠ [] ∧
     isNameMatch (clientNameOf (MatchResult.mk tA rA MatchType.exact).transaction)
       ((MatchResult.mk tA rA MatchType.exact).bankRecord.depositor.getD []) = true) :=
  ⟨by decide, performMatching_pairs_valid [tA] [rA] _ (by decide)⟩

/-- C3 counterexample: with the same transaction occurring twice in the input
list, `performMatching` pairs it with two different deposits, so one
transaction id appears in two MatchResults — the claimed injectivity fails
for arbitrary inputs. -/
theorem performMatching_dup_counterexample :
    ¬ (performMatching [tA, tA] [rA, rB]).Pairwise (fun a b =>
        a.transaction.id ≠ b.transaction.id ∧ a.bankRecord.id ≠ b.bankRecord.id) := by
  decide

theorem matchLoop_pairwise (records : List BankRecord) :
    ∀ (ts : List Transaction) (results : List MatchResult),
    results.Pairwise (fun a b =>
      a.transaction.id ≠ b.transaction.id ∧ a.bankRecord.id ≠ b.bankRecord.id) →
    (∀ m ∈ results, ∀ u ∈ ts, m.transaction.id ≠ u.id) →
    (ts.map Transaction.id).Nodup →
    (matchLoop records ts results).Pairwise (fun a b =>
      a.transaction.id ≠ b.transaction.id ∧ a.bankRecord.id ≠ b.bankRecord.id) := by
  intro ts
  induction ts with
  | nil => intro results hpair _ _; exact hpair
  | cons t ts ih =>
    intro results hpair hsep hnodup
    simp only [List.map_cons, List.nodup_cons, List.mem_map] at hnodup
    simp only [matchLoop]
    cases heq : scanRecords results t (clientNameOf t) records with
    | none =>
      exact ih results hpair (fun m hm u hu => hsep m hm u (by simp [hu])) hnodup.2
    | some m' =>
      obtain ⟨hmt, _, hfresh, _⟩ := scanRecords_some results t (clientNameOf t) records m' heq
      apply ih (results ++ [m'])
      · rw [List.pairwise_append]
        refine ⟨hpair, by simp, ?_⟩
        intro a ha b hb
        rw [List.mem_singleton.mp hb]
        constructor
        · rw [hmt]
          exact hsep a ha t (by simp)
        · exact hfresh a ha
      · intro m hm u hu
        rcases List.mem_append.mp hm with h0 | h0
        · exact hsep m h0 u (by simp [hu])
        · rw [List.mem_singleton.mp h0, hmt]
          intro hcontra
          exact hnodup.1 ⟨u, hu, hcontra.symm⟩
      · exact hnodup.2

/-- C3 amended: when the input transactions carry pairwise-distinct ids, the
`performMatching` results form a partial injective mapping — no transaction id
and no bank-record id appears in more than one MatchResult (the bank-record
half is enforced unconditionally by the in-run used-record check). -/
theorem performMatching_injective (transactions : List Transaction)
    (bankRecords : List BankRecord)
    (hids : (transactions.map Transaction.id).Nodup) :
    (performMatching transactions bankRecords).Pairwise (fun a b =>
      a.transaction.id ≠ b.transaction.id ∧ a.bankRecord.id ≠ b.bankRecord.id) := by
  simp only [performMatching]
  apply matchLoop_pairwise _ _ [] (by simp) (by simp)
  exact hids.sublist ((List.filter_sublist transactions).map Transaction.id)

/-- Witness for C3 at a concrete duplicate-free input. -/
theorem performMatching_injective_witness :
    ([tA, tG1].map Transaction.id).Nodup ∧
    (performMatching [tA, tG1] [rA, rB]).Pairwise (fun a b =>
      a.transaction.id ≠ b.transaction.id ∧ a.bankRecord.id ≠ b.bankRecord.id) :=
  ⟨by decide, performMatching_injective [tA, tG1] [rA, rB] (by decide)⟩

theorem insertGroup_spec (S : List Transaction) (k : Str) (t : Transaction)
    (ht : t ∈ S) (hk : getParentClientId t = some k) :
    ∀ acc : List (Str × List Transaction),
    (∀ e ∈ acc, ∀ u ∈ e.2, u ∈ S ∧ getParentClientId u = some e.1) →
    ∀ e ∈ insertGroup k t acc, ∀ u ∈ e.2, u ∈ S ∧ getParentClientId u = some e.1 := by
  intro acc
  induction acc with
  | nil =>
    intro _ e he u hu
    simp only [insertGroup, List.mem_singleton] at he
    subst he
    simp only [List.mem_singleton] at hu
    subst hu
    exact ⟨ht, hk⟩
  | cons e0 rest ih =>
    obtain ⟨k0, ts0⟩ := e0
    intro hacc e he u hu
    simp only [insertGroup] at he
    split_ifs at he with hkey
    · rcases List.mem_cons.mp he with h1 | h1
      · subst h1
        rcases List.mem_append.mp hu with h2 | h2
        · exact hacc (k0, ts0) (by simp) u h2
        · rw [List.mem_singleton.mp h2]
          exact ⟨ht, hkey ▸ hk⟩
      · exact hacc e (by simp [h1]) u hu
    · rcases List.mem_cons.mp he with h1 | h1
      · subst h1
        exact hacc (k0, ts0) (by simp) u hu
      · exact ih (fun e' he' => hacc e' (by simp [he'])) e h1 u hu

theorem buildGroups_fold (S : List Transaction) :
    ∀ (l : List Transaction) (acc : List (Str × List Transaction)),
    (∀ e ∈ acc, ∀ u ∈ e.2, u ∈ S ∧ getParentClientId u = some e.1) →
    (∀ t ∈ l, t ∈ S) →
    ∀ e ∈ List.foldl (fun acc t =>
        match getParentClientId t with
        | none => acc
        | some pid => if pid.isEmpty then acc else insertGroup pid t acc) acc l,
    ∀ u ∈ e.2, u ∈ S ∧ getParentClientId u = some e.1 := by
  intro l
  induction l with
  | nil => intro acc hacc _ e he; exact hacc e he
  | cons t ts ih =>
    intro acc hacc hl e he
    simp only [List.foldl_cons] at he
    refine ih _ ?_ (fun u hu => hl u (by simp [hu])) e he
    cases hpid : getParentClientId t with
    | none => simpa [hpid] using hacc
    | some pid =>
      by_cases hemp : pid.isEmpty
      · simpa [hpid, hemp] using hacc
      · simp only [hpid, hemp]
        simp only [Bool.false_eq_true, if_false]
        exact insertGroup_spec S pid t (hl t (by simp)) hpid acc hacc

theorem buildGroups_spec (ts : List Transaction) :
    ∀ e ∈ buildGroups ts, ∀ u ∈ e.2, u ∈ ts ∧ getParentClientId u = some e.1 := by
  exact buildGroups_fold ts ts [] (by simp) (fun t ht => ht)

theorem tryGroups_some (transactions : List Transaction) (record : BankRecord)
    (results : List GroupMatchResult) :
    ∀ (groups : List (Str × List Transaction)) (g : GroupMatchResult),
    tryGroups transactions record results groups = some g →
    g.bankRecord = record ∧ g.totalAmount = record.amount ∧
    2 ≤ g.transactions.length ∧ amounts g.transactions = record.amount ∧
    ∃ e ∈ groups, ∀ t ∈ g.transactions, t ∈ e.2 ∧
      (∀ r ∈ results, ∀ rt ∈ r.transactions, rt.id ≠ t.id) := by
  intro groups
  induction groups with
  | nil => intro g h; cases h
  | cons e0 gs ih =>
    obtain ⟨k, ctl⟩ := e0
    intro g h
    simp only [tryGroups] at h
    split_ifs at h with hlen
    · obtain ⟨h1, h2, h3, h4, e, he, hall⟩ := ih g h
      exact ⟨h1, h2, h3, h4, e, by simp [he], hall⟩
    · cases havail : availOf results ctl with
      | nil =>
        rw [havail] at h
        obtain ⟨h1, h2, h3, h4, e, he, hall⟩ := ih g h
        exact ⟨h1, h2, h3, h4, e, by simp [he], hall⟩
      | cons rep rest =>
        rw [havail] at h
        dsimp only at h
        split_ifs at h with hnm
        · obtain ⟨h1, h2, h3, h4, e, he, hall⟩ := ih g h
          exact ⟨h1, h2, h3, h4, e, by simp [he], hall⟩
        · cases hfind : findMatchingCombination (rep :: rest) record.amount with
          | none =>
            rw [hfind] at h
            dsimp only at h
            obtain ⟨h1, h2, h3, h4, e, he, hall⟩ := ih g h
            exact ⟨h1, h2, h3, h4, e, by simp [he], hall⟩
          | some comb =>
            rw [hfind] at h
            dsimp only at h
            split_ifs at h with hcomb
            · cases h
              obtain ⟨hsub, hsum, _⟩ := find_sound _ _ _ hfind
              refine ⟨rfl, rfl, hcomb, hsum, (k, ctl), by simp, ?_⟩
              intro t ht
              have hmem : t ∈ availOf results ctl := by
                rw [havail]
                exact mem_sortDesc _ t ((List.take_sublist 10 _).subset (hsub.subset ht))
              simp only [availOf, List.mem_filter, decide_eq_true_eq] at hmem
              refine ⟨hmem.1, ?_⟩
              intro r hr rt hrt heq
              exact hmem.2 ⟨r, hr, rt, hrt, heq⟩
            · obtain ⟨h1, h2, h3, h4, e, he, hall⟩ := ih g h
              exact ⟨h1, h2, h3, h4, e, by simp [he], hall⟩

theorem recordLoop_mem_of (transactions : List Transaction)
    (groups : List (Str × List Transaction)) (Q : GroupMatchResult → Prop)
    (Qr : BankRecord → Prop)
    (hstep : ∀ r results g, Qr r → tryGroups transactions r results groups = some g → Q g) :
    ∀ (rs : List BankRecord) (results : List GroupMatchResult),
    (∀ r ∈ rs, Qr r) → (∀ g ∈ results, Q g) →
    ∀ g ∈ recordLoop transactions groups rs results, Q g := by
  intro rs
  induction rs with
  | nil => intro results _ hres g hg; exact hres g hg
  | cons r rs ih =>
    intro results hr hres g hg
    simp only [recordLoop] at hg
    split_ifs at hg with hused
    · exact ih results (fun r' hr' => hr r' (by simp [hr'])) hres g hg
    · cases heq : tryGroups transactions r results groups with
      | some g' =>
        rw [heq] at hg
        refine ih (results ++ [g']) (fun r' hr' => hr r' (by simp [hr'])) ?_ g hg
        intro g0 hg0
        rcases List.mem_append.mp hg0 with h0 | h0
        · exact hres g0 h0
        · rw [List.mem_singleton.mp h0]
          exact hstep r results g' (hr r (by simp)) heq
      | none =>
        rw [heq] at hg
        exact ih results (fun r' hr' => hr r' (by simp [hr'])) hres g hg

theorem recordLoop_pairwise (transactions : List Transaction)
    (groups : List (Str × List Transaction))
    (R : GroupMatchResult → GroupMatchResult → Prop)
    (hstep : ∀ r results g g', g' ∈ results → g'.bankRecord.id ≠ r.id →
        tryGroups transactions r results groups = some g → R g' g) :
    ∀ (rs : List BankRecord) (results : List GroupMatchResult),
    results.Pairwise R → (recordLoop transactions groups rs results).Pairwise R := by
  intro rs
  induction rs with
  | nil => intro results hpair; exact hpair
  | cons r rs ih =>
    intro results hpair
    simp only [recordLoop]
    split_ifs with hused
    · exact ih results hpair
    · cases heq : tryGroups transactions r results groups with
      | some g' =>
        apply ih (results ++ [g'])
        rw [List.pairwise_append]
        refine ⟨hpair, by simp, ?_⟩
        intro a ha b hb
        rw [List.mem_singleton.mp hb]
        refine hstep r results g' a ha ?_ heq
        intro hcontra
        exact hused ⟨a, ha, hcontra⟩
      | none => exact ih results hpair

/-- C4: `performGroupMatching` never returns a group containing a bank record
that is flagged matched or whose id is in the caller-supplied
`usedRecordIds`, nor a transaction whose id is in `usedTransactionIds`; and
no bank-record id and no transaction id appears in two different group
results of the same run. -/
theorem performGroupMatching_no_reuse (transactions : List Transaction)
    (bankRecords : List BankRecord) (usedRecordIds usedTransactionIds : List Str) :
    (∀ g ∈ performGroupMatching transactions bankRecords usedRecordIds usedTransactionIds,
       g.bankRecord.is_matched = false ∧
       usedRecordIds.contains g.bankRecord.id = false ∧
       ∀ t ∈ g.transactions, usedTransactionIds.contains t.id = false) ∧
    (performGroupMatching transactions bankRecords usedRecordIds usedTransactionIds).Pairwise
      (fun a b => a.bankRecord.id ≠ b.bankRecord.id ∧
        ∀ ta ∈ a.transactions, ∀ tb ∈ b.transactions, ta.id ≠ tb.id) := by
  constructor
  · intro g hg
    simp only [performGroupMatching] at hg
    refine recordLoop_mem_of transactions _ (fun g0 =>
        g0.bankRecord.is_matched = false ∧
        usedRecordIds.contains g0.bankRecord.id = false ∧
        ∀ t ∈ g0.transactions, usedTransactionIds.contains t.id = false)
      (fun r => r.is_matched = false ∧ usedRecordIds.contains r.id = false)
      ?_ _ [] ?_ (by simp) g hg
    · intro r results g0 hQr heq
      obtain ⟨hbr, _, _, _, e, he, hall⟩ := tryGroups_some transactions r results _ g0 heq
      refine ⟨hbr ▸ hQr.1, hbr ▸ hQr.2, ?_⟩
      intro t ht
      have hpend := (buildGroups_spec _ e he t (hall t ht).1).1
      simp only [List.mem_filter, Bool.and_eq_true, Bool.not_eq_true'] at hpend
      exact hpend.2.2
    · intro r hr
      simp only [List.mem_filter, Bool.and_eq_true, Bool.not_eq_true'] at hr
      exact hr.2
  · simp only [performGroupMatching]
    apply recordLoop_pairwise transactions _ _ ?_ _ [] (by simp)
    intro r results g g' hg' hneq heq
    obtain ⟨hbr, _, _, _, _, _, hall⟩ := tryGroups_some transactions r results _ g heq
    refine ⟨hbr ▸ hneq, ?_⟩
    intro ta hta tb htb
    exact (hall tb htb).2 g' hg' ta hta

/-- Witness for C4 at a concrete run producing one group match. -/
theorem performGroupMatching_no_reuse_witness :
    GroupMatchResult.mk [tG1, tG2] rG "xy".data 50000 ∈
      performGroupMatching [tG1, tG2] [rG] [] [] ∧
    ((GroupMatchResult.mk [tG1, tG2] rG "xy".data 50000).bankRecord.is_matched = false ∧
     List.contains [] (GroupMatchResult.mk [tG1, tG2] rG "xy".data 50000).bankRecord.id = false ∧
     ∀ t ∈ (GroupMatchResult.mk [tG1, tG2] rG "xy".data 50000).transactions,
       List.contains [] t.id = false) :=
  ⟨by decide, (performGroupMatching_no_reuse [tG1, tG2] [rG] [] []).1 _ (by decide)⟩

/-- C5: every group result has at least two transactions, all sharing the same
parent-client id; their amounts sum exactly to the bank record's amount;
`totalAmount` equals that amount; and each bank-record id occurs in at most
one group result per run. -/
theorem performGroupMatching_results_valid (transactions : List Transaction)
    (bankRecords : List BankRecord) (usedRecordIds usedTransactionIds : List Str) :
    (∀ g ∈ performGroupMatching transactions bankRecords usedRecordIds usedTransactionIds,
       2 ≤ g.transactions.length ∧
       amounts g.transactions = g.bankRecord.amount ∧
       g.totalAmount = g.bankRecord.amount ∧
       ∃ k, ∀ t ∈ g.transactions, getParentClientId t = some k) ∧
    (performGroupMatching transactions bankRecords usedRecordIds usedTransactionIds).Pairwise
      (fun a b => a.bankRecord.id ≠ b.bankRecord.id) := by
  constructor
  · intro g hg
    simp only [performGroupMatching] at hg
    refine recordLoop_mem_of transactions _ (fun g0 =>
        2 ≤ g0.transactions.length ∧
        amounts g0.transactions = g0.bankRecord.amount ∧
        g0.totalAmount = g0.bankRecord.amount ∧
        ∃ k, ∀ t ∈ g0.transactions, getParentClientId t = some k)
      (fun _ => True) ?_ _ [] (by simp) (by simp) g hg
    intro r results g0 _ heq
    obtain ⟨hbr, htot, hlen, hsum, e, he, hall⟩ := tryGroups_some transactions r results _ g0 heq
    refine ⟨hlen, by rw [hbr]; exact hsum, by rw [hbr]; exact htot, e.1, ?_⟩
    intro t ht
    exact (buildGroups_spec _ e he t (hall t ht).1).2
  · simp only [performGroupMatching]
    apply recordLoop_pairwise transactions _ _ ?_ _ [] (by simp)
    intro r results g g' hg' hneq heq
    obtain ⟨hbr, _⟩ := tryGroups_some transactions r results _ g heq
    exact hbr ▸ hneq

/-- Witness for C5 at a concrete run producing one group match. -/
theorem performGroupMatching_results_valid_witness :
    GroupMatchResult.mk [tG1, tG2] rG "xy".data 50000 ∈
      performGroupMatching [tG1, tG2] [rG] [] [] ∧
    (2 ≤ (GroupMatchResult.mk [tG1, tG2] rG "xy".data 50000).transactions.length ∧
     amounts (GroupMatchResult.mk [tG1, tG2] rG "xy".data 50000).transactions =
       (GroupMatchResult.mk [tG1, tG2] rG "xy".data 50000).bankRecord.amount ∧
     (GroupMatchResult.mk [tG1, tG2] rG "xy".data 50000).totalAmount =
       (GroupMatchResult.mk [tG1, tG2] rG "xy".data 50000).bankRecord.amount ∧
     ∃ k, ∀ t ∈ (GroupMatchResult.mk [tG1, tG2] rG "xy".data 50000).transactions,
       getParentClientId t = some k) :=
  ⟨by decide, (performGroupMatching_results_valid [tG1, tG2] [rG] [] []).1 _ (by decide)⟩

/-- C6 counterexample: the parent client `cParent` exists in the hierarchy
(it is the joined client of `tP` in the input list) and the representative's
client `cChild` points at it, yet the recorded display name is the
sub-client's own name, because the parent's registered name is empty and the
`parentClient?.name || clientName` fallback discards it. -/
theorem groupMatch_displayName_counterexample :
    tS1.clients = some cChild ∧
    cChild.parent_id = some cParent.id ∧
    (∃ t ∈ [tP, tS1, tS2], t.clients = some cParent) ∧
    (performGroupMatching [tP, tS1, tS2] [rS] [] []).map GroupMatchResult.clientName =
      ["ab".data] ∧
    cParent.name ≠ "ab".data := by
  decide

/-- C6 amended: the resolved display name is the looked-up top-level client's
name when the representative's client has a non-empty `parent_id`, the parent
is the joined client of some transaction in the input list (the first such),
and the parent's name is non-empty; when the parent's name is empty, or the
parent is not joined to any input transaction (the lookup fails), the
resolution falls back to the client's own name, and a client without a
`parent_id` always resolves to its own name. -/
theorem resolveDisplayName_spec (transactions : List Transaction) (rep : Transaction)
    (c : Client) (hc : rep.clients = some c) :
    (∀ p pc, c.parent_id = some p → p ≠ [] →
        findParentClient transactions p = some pc → pc.name ≠ [] →
        resolveDisplayName transactions rep = pc.name) ∧
    (∀ p pc, c.parent_id = some p → p ≠ [] →
        findParentClient transactions p = some pc → pc.name = [] →
        resolveDisplayName transactions rep = c.name) ∧
    (∀ p, c.parent_id = some p → p ≠ [] →
        findParentClient transactions p = none →
        resolveDisplayName transactions rep = c.name) ∧
    (c.parent_id = none → resolveDisplayName transactions rep = c.name) := by
  refine ⟨?_, ?_, ?_, ?_⟩
  · intro p pc hp hpne hfind hname
    have hemp : p.isEmpty = false := by simpa [List.isEmpty_iff] using hpne
    have hnemp : pc.name.isEmpty = false := by simpa [List.isEmpty_iff] using hname
    simp [resolveDisplayName, hc, hp, hemp, hfind, hnemp]
  · intro p pc hp hpne hfind hname
    have hemp : p.isEmpty = false := by simpa [List.isEmpty_iff] using hpne
    simp [resolveDisplayName, hc, hp, hemp, hfind, hname, clientNameOf]
  · intro p hp hpne hfind
    have hemp : p.isEmpty = false := by simpa [List.isEmpty_iff] using hpne
    simp [resolveDisplayName, hc, hp, hemp, hfind, clientNameOf]
  · intro hp
    simp [resolveDisplayName, hc, hp, clientNameOf]

/-- Witness for C6 (amended) at a concrete parent lookup with non-empty name. -/
theorem resolveDisplayName_spec_witness :
    tR.clients = some cR ∧ cR.parent_id = some "p2".data ∧ "p2".data ≠ [] ∧
    findParentClient [tP2] "p2".data = some cP2 ∧ cP2.name ≠ [] ∧
    resolveDisplayName [tP2] tR = cP2.name :=
  ⟨rfl, rfl, by decide, by decide, by decide,
    (resolveDisplayName_spec [tP2] tR cR rfl).1 "p2".data cP2 rfl (by decide) (by decide)
      (by decide)⟩

theorem mismatchMessage_ne_nil (a b : Int) : mismatchMessage a b ≠ [] := by
  simp [mismatchMessage]

/-- C7: with a deposit selected, confirming adds a group result and removes
the deposit and the selected transactions from the unmatched pools exactly
when the selection has (set) size at least 2 and its amount total equals the
deposit's amount; for a size-≥2 selection whose total differs, confirmation
leaves the accepted set and both pools unchanged and sets a non-empty
user-facing error message. -/
theorem handleConfirmGroupMatch_spec (s : UploadState) (rec : BankRecord)
    (hsel : s.selectedRecordForGroup = some rec) :
    (((∃ g, (handleConfirmGroupMatch s).groupMatchResults = s.groupMatchResults ++ [g]) ∧
      (handleConfirmGroupMatch s).unmatchedRecords =
        s.unmatchedRecords.filter (fun r => !(r.id == rec.id)) ∧
      (handleConfirmGroupMatch s).unmatchedTransactions =
        s.unmatchedTransactions.filter (fun t => !s.selectedTransactionIds.contains t.id)) ↔
     (2 ≤ s.selectedTransactionIds.dedup.length ∧ selectedTransactionsTotal s = rec.amount)) ∧
    (2 ≤ s.selectedTransactionIds.dedup.length → selectedTransactionsTotal s ≠ rec.amount →
      (handleConfirmGroupMatch s).groupMatchResults = s.groupMatchResults ∧
      (handleConfirmGroupMatch s).unmatchedRecords = s.unmatchedRecords ∧
      (handleConfirmGroupMatch s).unmatchedTransactions = s.unmatchedTransactions ∧
      (handleConfirmGroupMatch s).error ≠ []) := by
  simp only [handleConfirmGroupMatch, hsel]
  by_cases h1 : s.selectedTransactionIds.dedup.length < 2
  · rw [if_pos h1]
    constructor
    · constructor
      · rintro ⟨⟨g, hg⟩, -, -⟩
        have := congrArg List.length hg
        simp at this
      · rintro ⟨h2le, -⟩
        omega
    · intro h2le
      omega
  · rw [if_neg h1]
    by_cases h2 : selectedTransactionsTotal s = rec.amount
    · rw [if_neg (by simpa using h2)]
      constructor
      · constructor
        · intro _
          exact ⟨not_lt.mp h1, h2⟩
        · intro _
          exact ⟨⟨_, rfl⟩, rfl, rfl⟩
      · intro _ hne
        exact absurd h2 hne
    · rw [if_pos h2]
      constructor
      · constructor
        · rintro ⟨⟨g, hg⟩, -, -⟩
          have := congrArg List.length hg
          simp at this
        · rintro ⟨-, heq⟩
          exact absurd heq h2
      · intro _ _
        exact ⟨rfl, rfl, rfl, mismatchMessage_ne_nil _ _⟩

/-- Witness for C7 at a concrete workflow state with a selected deposit. -/
theorem handleConfirmGroupMatch_spec_witness :
    sExact.selectedRecordForGroup = some uRec ∧
    ((((∃ g, (handleConfirmGroupMatch sExact).groupMatchResults =
          sExact.groupMatchResults ++ [g]) ∧
       (handleConfirmGroupMatch sExact).unmatchedRecords =
         sExact.unmatchedRecords.filter (fun r => !(r.id == uRec.id)) ∧
       (handleConfirmGroupMatch sExact).unmatchedTransactions =
         sExact.unmatchedTransactions.filter
           (fun t => !sExact.selectedTransactionIds.contains t.id)) ↔
      (2 ≤ sExact.selectedTransactionIds.dedup.length ∧
       selectedTransactionsTotal sExact = uRec.amount)) ∧
     (2 ≤ sExact.selectedTransactionIds.dedup.length →
      selectedTransactionsTotal sExact ≠ uRec.amount →
      (handleConfirmGroupMatch sExact).groupMatchResults = sExact.groupMatchResults ∧
      (handleConfirmGroupMatch sExact).unmatchedRecords = sExact.unmatchedRecords ∧
      (handleConfirmGroupMatch sExact).unmatchedTransactions = sExact.unmatchedTransactions ∧
      (handleConfirmGroupMatch sExact).error ≠ [])) :=
  ⟨rfl, handleConfirmGroupMatch_spec sExact uRec rfl⟩

/-- C8 counterexample: for the selection summing to 49000 against the
50000 deposit, the confirm button is disabled but the displayed variance is
+1000 (deposit amount minus selection sum), not the claimed -1000. -/
theorem manualVariance_counterexample :
    selectedTransactionsTotal sMismatch = 49000 ∧
    uRec.amount = 50000 ∧
    confirmDisabled sMismatch = some true ∧
    displayedVariance sMismatch = some 1000 ∧
    displayedVariance sMismatch ≠ some (-1000) := by
  decide

/-- C8 amended: for any workflow state whose selected deposit has amount
50000 and whose selection sums to 49000, the confirmation button is disabled
and the displayed variance is +1000, computed as deposit amount minus
selection sum. -/
theorem manualVariance_spec (s : UploadState) (rec : BankRecord)
    (hsel : s.selectedRecordForGroup = some rec)
    (hamt : rec.amount = 50000) (htot : selectedTransactionsTotal s = 49000) :
    confirmDisabled s = some true ∧ displayedVariance s = some 1000 := by
  constructor
  · simp [confirmDisabled, hsel, htot, hamt]
  · simp only [displayedVariance, hsel, Option.map_some', htot, hamt]
    norm_num

/-- Witness for C8 (amended) at the concrete mismatching selection. -/
theorem manualVariance_spec_witness :
    sMismatch.selectedRecordForGroup = some uRec ∧ uRec.amount = 50000 ∧
    selectedTransactionsTotal sMismatch = 49000 ∧
    (confirmDisabled sMismatch = some true ∧ displayedVariance sMismatch = some 1000) :=
  ⟨rfl, by decide, by decide, manualVariance_spec sMismatch uRec rfl (by decide) (by decide)⟩

theorem matchLoop_nil_records :
    ∀ (ts : List Transaction) (results : List MatchResult),
    matchLoop [] ts results = results := by
  intro ts
  induction ts with
  | nil => intro results; rfl
  | cons t ts ih => intro results; simp [matchLoop, scanRecords, ih]

/-- C9: on inputs where every bank record is already flagged matched and
every transaction is completed, card, or carries a paid date, both matching
passes return the empty list — re-running the pipeline on fully reconciled
inputs produces no new matches. -/
theorem fullyReconciled_no_matches (transactions : List Transaction)
    (bankRecords : List BankRecord) (usedRecordIds usedTransactionIds : List Str)
    (hrec : ∀ r ∈ bankRecords, r.is_matched = true)
    (_htx : ∀ t ∈ transactions,
      t.status = TStatus.completed ∨ t.status = TStatus.card ∨ t.paid_at ≠ none) :
    performMatching transactions bankRecords = [] ∧
    performGroupMatching transactions bankRecords usedRecordIds usedTransactionIds = [] := by
  have hfilter : bankRecords.filter (fun r => !r.is_matched) = [] :=
    List.filter_eq_nil_iff.mpr (fun r hr => by simp [hrec r hr])
  have hfilter2 : bankRecords.filter (fun r => !r.is_matched && !usedRecordIds.contains r.id) = [] :=
    List.filter_eq_nil_iff.mpr (fun r hr => by simp [hrec r hr])
  constructor
  · simp only [performMatching, hfilter]
    exact matchLoop_nil_records _ []
  · simp only [performGroupMatching, hfilter2]
    rfl

/-- Witness for C9 at a fully reconciled concrete input. -/
theorem fullyReconciled_no_matches_witness :
    (∀ r ∈ [rM], r.is_matched = true) ∧
    (∀ t ∈ [tC], t.status = TStatus.completed ∨ t.status = TStatus.card ∨ t.paid_at ≠ none) ∧
    (performMatching [tC] [rM] = [] ∧ performGroupMatching [tC] [rM] [] [] = []) :=
  ⟨by decide, by decide, fullyReconciled_no_matches [tC] [rM] [] [] (by decide) (by decide)⟩

theorem strIncludes_nil (hay : Str) : strIncludes hay [] = true := by
  cases hay <;> simp [strIncludes, strStarts]

/-- C10: a client name that is non-empty but normalizes to the empty string
(only whitespace and characters outside the word/Hangul class) passes the
pre-normalization empty-input guard, and the empty normalized name is a
substring of every normalized depositor, so `isNameMatch` accepts every
non-empty depositor. -/
theorem isNameMatch_empty_normalization (clientName depositor : Str)
    (hc : clientName ≠ []) (hnorm : normalizeString clientName = [])
    (hd : depositor ≠ []) :
    isNameMatch clientName depositor = true := by
  have hce : clientName.isEmpty = false := by simpa [List.isEmpty_iff] using hc
  have hde : depositor.isEmpty = false := by simpa [List.isEmpty_iff] using hd
  simp [isNameMatch, hce, hde, hnorm, strIncludes_nil]

/-- Witness for C10: a dash-only client name matches an unrelated depositor. -/
theorem isNameMatch_empty_normalization_witness :
    "--".data ≠ ([] : Str) ∧ normalizeString "--".data = [] ∧ "a".data ≠ ([] : Str) ∧
    isNameMatch "--".data "a".data = true :=
  ⟨by decide, by decide, by decide,
    isNameMatch_empty_normalization "--".data "a".data (by decide) (by decide) (by decide)⟩

end JayDesign
